import Mathlib

/-!
Verification development for the scale subsystem of the facet plotting
library (package `facet`).  The Go source is shallowly embedded: Go
`float64` values are modelled by the type `F` below (NaN, signed
infinities, and exact rationals standing in for finite doubles; the
embedding is exact, it does not model rounding of the 53-bit mantissa,
signed zero, or overflow to infinity), structs become structures, and
methods that mutate their receiver become functions returning the
updated value.
-/

namespace Facet

/-- Model of a Go `float64`: `nan`, `inf true` = positive infinity,
`inf false` = negative infinity, and `fin q` for a finite value.
Finite values are exact rationals, so the model has no rounding error,
no signed zero and no overflow. -/
inductive F where
  | nan : F
  | inf : Bool → F
  | fin : ℚ → F
deriving DecidableEq

namespace F

/-- `math.IsNaN`. -/
def isNaN : F → Bool
  | nan => true
  | _ => false

/-- IEEE negation (no signed zero in the model). -/
def neg : F → F
  | nan => nan
  | inf s => inf (!s)
  | fin q => fin (-q)

/-- IEEE addition: NaN propagates, opposite infinities give NaN. -/
def add : F → F → F
  | nan, _ => nan
  | _, nan => nan
  | inf s, inf t => if s = t then inf s else nan
  | inf s, fin _ => inf s
  | fin _, inf t => inf t
  | fin a, fin b => fin (a + b)

/-- IEEE subtraction, `x - y = x + (-y)`. -/
def sub (x y : F) : F := add x (neg y)

/-- IEEE multiplication: NaN propagates, `inf * 0 = NaN`. -/
def mul : F → F → F
  | nan, _ => nan
  | _, nan => nan
  | inf s, inf t => inf (s = t)
  | inf s, fin q => if q = 0 then nan else if 0 < q then inf s else inf (!s)
  | fin q, inf s => if q = 0 then nan else if 0 < q then inf s else inf (!s)
  | fin a, fin b => fin (a * b)

/-- IEEE division: NaN propagates, `inf/inf = NaN`, `0/0 = NaN`,
nonzero finite divided by zero gives a signed infinity (the model has
only the positive zero), finite over infinity gives zero. -/
def div : F → F → F
  | nan, _ => nan
  | _, nan => nan
  | inf _, inf _ => nan
  | inf s, fin q => if q < 0 then inf (!s) else inf s
  | fin _, inf _ => fin 0
  | fin a, fin b =>
    if b = 0 then
      (if a = 0 then nan else if 0 < a then inf true else inf false)
    else fin (a / b)

/-- Go `<` on float64: any comparison with NaN is false. -/
def lt : F → F → Bool
  | nan, _ => false
  | _, nan => false
  | inf s, inf t => !s && t
  | inf s, fin _ => !s
  | fin _, inf t => t
  | fin a, fin b => decide (a < b)

/-- Go `==` on float64: NaN is not equal to anything, including itself. -/
def beq : F → F → Bool
  | nan, _ => false
  | _, nan => false
  | inf s, inf t => s = t
  | inf _, fin _ => false
  | fin _, inf _ => false
  | fin a, fin b => decide (a = b)

/-- Exact rational square root; agrees with the real square root on
perfect squares (numerator and denominator both squares). -/
def sqrtQ (q : ℚ) : ℚ := (Nat.sqrt q.num.toNat : ℚ) / (Nat.sqrt q.den : ℚ)

/-- `math.Sqrt`: NaN for NaN and negative arguments, `+inf` for `+inf`.
On finite nonnegative rationals the model returns `sqrtQ`, which is the
true square root whenever the argument is a perfect rational square;
every theorem below evaluates `sqrt` only at such points. -/
def sqrt : F → F
  | nan => nan
  | inf s => if s then inf true else nan
  | fin q => if q < 0 then nan else fin (sqrtQ q)

instance : Add F := ⟨add⟩
instance : Sub F := ⟨sub⟩
instance : Mul F := ⟨mul⟩
instance : Div F := ⟨div⟩
instance : Neg F := ⟨neg⟩

@[simp] theorem add_def (x y : F) : x + y = add x y := rfl
@[simp] theorem sub_def (x y : F) : x - y = sub x y := rfl
@[simp] theorem mul_def (x y : F) : x * y = mul x y := rfl
@[simp] theorem div_def (x y : F) : x / y = div x y := rfl
@[simp] theorem neg_def (x : F) : -x = neg x := rfl

@[simp] theorem fin_add_fin (a b : ℚ) : add (fin a) (fin b) = fin (a + b) := rfl
@[simp] theorem fin_mul_fin (a b : ℚ) : mul (fin a) (fin b) = fin (a * b) := rfl
@[simp] theorem neg_fin (a : ℚ) : neg (fin a) = fin (-a) := rfl
@[simp] theorem fin_sub_fin (a b : ℚ) : sub (fin a) (fin b) = fin (a - b) := by
  simp [sub, sub_eq_add_neg]

theorem fin_div_fin (a b : ℚ) (hb : b ≠ 0) : div (fin a) (fin b) = fin (a / b) := by
  simp [div, hb]

@[simp] theorem lt_fin_fin (a b : ℚ) : lt (fin a) (fin b) = decide (a < b) := rfl
@[simp] theorem beq_fin_fin (a b : ℚ) : beq (fin a) (fin b) = decide (a = b) := rfl
@[simp] theorem lt_nan_right (x : F) : lt x nan = false := by cases x <;> rfl
@[simp] theorem lt_nan_left (x : F) : lt nan x = false := by cases x <;> rfl
@[simp] theorem isNaN_fin (a : ℚ) : isNaN (fin a) = false := rfl
@[simp] theorem isNaN_nan : isNaN nan = true := rfl

end F

/-! ## Interval (src/scale.go and src/unnamed/part_004)

Both drafts of `scale.go` define the same `Interval` struct and the
same `Update` semantics; the newer draft makes `Update` variadic. -/

/-- `Interval` from `scale.go`: a possibly degenerate real interval
whose edges may be NaN, meaning the edge is not set. -/
structure Interval where
  Min : F
  Max : F
deriving DecidableEq

/-- `UnsetInterval`: the interval with unspecified (NaN) endpoints. -/
def UnsetInterval : Interval := ⟨F.nan, F.nan⟩

/-- One step of `Interval.Update`: the body of the loop in
`func (i *Interval) Update(x ...float64)`.  NaN values are skipped;
otherwise `if !(i.Min < v) { i.Min = v }` and
`if !(i.Max > v) { i.Max = v }`. -/
def Interval.update1 (i : Interval) (v : F) : Interval :=
  if v.isNaN then i
  else
    let i := if !(F.lt i.Min v) then { i with Min := v } else i
    if !(F.lt v i.Max) then { i with Max := v } else i

/-- `Interval.Update` (variadic in Go): fold `update1` over the
argument list. -/
def Interval.Update (i : Interval) (xs : List F) : Interval :=
  xs.foldl Interval.update1 i

/-- `Interval.Equal` from `src/scale.go`: note that when `i.Min` is NaN
the result depends only on `j.Min`, and when `i.Min` is a number but
`i.Max` is NaN the result depends only on `j.Max`. -/
def Interval.Equal (i j : Interval) : Bool :=
  if i.Min.isNaN then j.Min.isNaN
  else if i.Max.isNaN then j.Max.isNaN
  else F.beq i.Min j.Min && F.beq i.Max j.Max

/-! ## Transformations (src/trans.go)

`Log10Trans` is omitted: its definition needs the transcendental
`math.Log10`, and no claim mentions it. The `Ticker` field carries an
external `gonum` tick generator and is likewise not part of the model. -/

/-- `Transformation` from `src/trans.go`: a name and the two interval
mapping functions. -/
structure Transformation where
  Name : String
  Trans : Interval → Interval → F → F
  Inverse : Interval → Interval → F → F

/-- `IdentityTrans`: both functions return their argument unchanged. -/
def IdentityTrans : Transformation :=
  { Name := "Identity"
    Trans := fun _fromI _toI x => x
    Inverse := fun _fromI _toI y => y }

/-- `LinearTrans`: note that the `Inverse` function of the source has
exactly the same body as `Trans`; both map a value in `fromI`
coordinates to `toI` coordinates. -/
def LinearTrans : Transformation :=
  { Name := "Linear"
    Trans := fun fromI toI x =>
      toI.Min + (toI.Max - toI.Min) * (x - fromI.Min) / (fromI.Max - fromI.Min)
    Inverse := fun fromI toI y =>
      toI.Min + (toI.Max - toI.Min) * (y - fromI.Min) / (fromI.Max - fromI.Min) }

/-- `SqrtTrans`: linear mapping into the squared `toI` bounds followed
by a square root; the inverse squares and maps back from the squared
`fromI` bounds. -/
def SqrtTrans : Transformation :=
  { Name := "SquareRoot"
    Trans := fun fromI toI x =>
      let area : Interval := ⟨toI.Min * toI.Min, toI.Max * toI.Max⟩
      F.sqrt (LinearTrans.Trans fromI area x)
    Inverse := fun fromI toI y =>
      let area : Interval := ⟨fromI.Min * fromI.Min, fromI.Max * fromI.Max⟩
      LinearTrans.Trans area toI (y * y) }

/-- `SqrtTransFix0`: like `SqrtTrans` but both `fromI.Min` and
`toI.Min` are overwritten with 0 before the computation. -/
def SqrtTransFix0 : Transformation :=
  { Name := "SquareRoot"
    Trans := fun fromI toI x =>
      let fromI : Interval := { fromI with Min := F.fin 0 }
      let toI : Interval := { toI with Min := F.fin 0 }
      let area : Interval := ⟨toI.Min * toI.Min, toI.Max * toI.Max⟩
      F.sqrt (LinearTrans.Trans fromI area x)
    Inverse := fun fromI toI y =>
      let fromI : Interval := { fromI with Min := F.fin 0 }
      let toI : Interval := { toI with Min := F.fin 0 }
      let area : Interval := ⟨fromI.Min * fromI.Min, fromI.Max * fromI.Max⟩
      LinearTrans.Trans area toI (y * y) }

/-! ## Scale (src/scale.go, the newer draft with Data / Limit / Range) -/

/-- `ScaleType` from `scale.go`. -/
inductive ScaleType where
  | Linear : ScaleType
  | Discrete : ScaleType
  | Time : ScaleType
  | Logarithmic : ScaleType
deriving DecidableEq

/-- The anonymous `Expand` struct inside `Autoscaling`. -/
structure Expansion where
  Absolute : F
  Releative : F

/-- `Autoscaling` from `src/scale.go`. -/
structure Autoscaling where
  Expand : Expansion
  MinRange : Interval
  MaxRange : Interval

/-- `Scale` from `src/scale.go`.  The `Ticker`, `Values`, `TimeFmt` and
`T0` fields carry external or cosmetic data untouched by every claim
and are omitted. -/
structure Scale where
  Title : String
  Data : Interval
  Limit : Interval
  Range : Interval
  Trans : Transformation
  ScaleType : ScaleType
  Autoscaling : Autoscaling

/-- Field promotion of the embedded `Autoscaling` struct. -/
def Scale.MinRange (s : Scale) : Interval := s.Autoscaling.MinRange

/-- Field promotion of the embedded `Autoscaling` struct. -/
def Scale.MaxRange (s : Scale) : Interval := s.Autoscaling.MaxRange

/-- Field promotion of the embedded `Autoscaling` struct. -/
def Scale.Expand (s : Scale) : Expansion := s.Autoscaling.Expand

/-- `NewScale` from `src/scale.go`: all intervals unset, identity
transformation, zero expansion. -/
def NewScale : Scale :=
  { Title := ""
    Data := UnsetInterval
    Limit := UnsetInterval
    Range := UnsetInterval
    Trans := IdentityTrans
    ScaleType := ScaleType.Linear
    Autoscaling :=
      { Expand := { Absolute := F.fin 0, Releative := F.fin 0 }
        MinRange := UnsetInterval
        MaxRange := UnsetInterval } }

/-- `Scale.HasData`: both edges of `Data` are numbers. -/
def Scale.HasData (s : Scale) : Bool :=
  !s.Data.Min.isNaN && !s.Data.Max.isNaN

/-- `Scale.Map` from `src/scale.go`.  The function returns
`s.Trans.Trans(s.Limit, {0,1}, x)` unconditionally; the block guarding
for an unset or degenerate `Limit` sits after this `return` statement
and is dead code. -/
def Scale.Map (s : Scale) (x : F) : F :=
  let U : Interval := ⟨F.fin 0, F.fin 1⟩
  s.Trans.Trans s.Limit U x

/-- `Scale.UpdateData`: fold both edges of `i` into `Data`. -/
def Scale.UpdateData (s : Scale) (i : Interval) : Scale :=
  { s with Data := (s.Data.update1 i.Min).update1 i.Max }

/-- `Scale.applyExpansion` from `src/scale.go`: overwrite one edge of
`Limit` with the inverse transformation of the fractional overshoot,
then add the absolute expansion. -/
def Scale.applyExpansion (s : Scale) (mn : Bool) : Scale :=
  let U : Interval := ⟨F.fin 0, F.fin 1⟩
  if mn then
    let m := s.Trans.Inverse U s.Data (-s.Expand.Releative)
    { s with Limit := { s.Limit with Min := m - s.Expand.Absolute } }
  else
    let m := s.Trans.Inverse U s.Data (F.fin 1 + s.Expand.Releative)
    { s with Limit := { s.Limit with Max := m + s.Expand.Absolute } }

/-- `Scale.Autoscale` from `src/scale.go`.  Each edge independently:
a degenerate (non-NaN) `MinRange`/`MaxRange` pins the edge, otherwise
the edge starts from `Data`, is expanded, and is clipped into the
allowed range.  Go float comparisons with NaN are false, so an unset
range neither pins nor clips. -/
def Scale.Autoscale (s : Scale) : Scale :=
  if !s.HasData then s
  else
    let s1 :=
      if F.beq s.MinRange.Min s.MinRange.Max then
        { s with Limit := { s.Limit with Min := s.MinRange.Min } }
      else
        let t := { s with Limit := { s.Limit with Min := s.Data.Min } }
        let t := t.applyExpansion true
        let t := if F.lt t.Limit.Min t.MinRange.Min then
            { t with Limit := { t.Limit with Min := t.MinRange.Min } } else t
        let t := if F.lt t.MinRange.Max t.Limit.Min then
            { t with Limit := { t.Limit with Min := t.MinRange.Max } } else t
        t
    if F.beq s1.MaxRange.Min s1.MaxRange.Max then
      { s1 with Limit := { s1.Limit with Max := s1.MaxRange.Min } }
    else
      let t := { s1 with Limit := { s1.Limit with Max := s1.Data.Max } }
      let t := t.applyExpansion false
      let t := if F.lt t.Limit.Max t.MaxRange.Min then
          { t with Limit := { t.Limit with Max := t.MaxRange.Min } } else t
      let t := if F.lt t.MaxRange.Max t.Limit.Max then
          { t with Limit := { t.Limit with Max := t.MaxRange.Max } } else t
      t

/-- `Scale.fillRange`: `Range` defaults edgewise from `Limit`. -/
def Scale.fillRange (s : Scale) : Scale :=
  let s := if s.Range.Min.isNaN then
      { s with Range := { s.Range with Min := s.Limit.Min } } else s
  if s.Range.Max.isNaN then
    { s with Range := { s.Range with Max := s.Limit.Max } } else s

/-! ## Helper lemmas -/

/-- On concrete finite intervals `LinearTrans.Trans` is the affine map,
provided the source interval is nondegenerate. -/
theorem linearTrans_trans_fin (a b u v x : ℚ) (h : b - a ≠ 0) :
    LinearTrans.Trans ⟨F.fin a, F.fin b⟩ ⟨F.fin u, F.fin v⟩ (F.fin x)
      = F.fin (u + (v - u) * (x - a) / (b - a)) := by
  simp [LinearTrans, F.div, h]

/-- `LinearTrans.Inverse` computes the same affine map as `Trans`. -/
theorem linearTrans_inverse_fin (a b u v y : ℚ) (h : b - a ≠ 0) :
    LinearTrans.Inverse ⟨F.fin a, F.fin b⟩ ⟨F.fin u, F.fin v⟩ (F.fin y)
      = F.fin (u + (v - u) * (y - a) / (b - a)) := by
  simp [LinearTrans, F.div, h]

/-- Go float equality agrees with structural equality on non-NaN values. -/
theorem F.beq_eq_true_iff (x y : F) (hx : x.isNaN = false) :
    F.beq x y = true ↔ x = y := by
  cases x <;> cases y <;> simp_all [F.beq, F.isNaN]

@[simp] theorem F.beq_nan_left (x : F) : F.beq F.nan x = false := by cases x <;> rfl

@[simp] theorem F.beq_nan_right (x : F) : F.beq x F.nan = false := by cases x <;> rfl

/-- The right-edge half of `applyExpansion` never writes `Limit.Min`. -/
theorem applyExpansion_false_limit_min (s : Scale) :
    (s.applyExpansion false).Limit.Min = s.Limit.Min := by
  simp [Scale.applyExpansion]

/-- Specialisation of `linearTrans_inverse_fin` to the unit source
interval `{0,1}` used by `applyExpansion`. -/
theorem linearTrans_inverse_unit (u v y : ℚ) :
    LinearTrans.Inverse ⟨F.fin 0, F.fin 1⟩ ⟨F.fin u, F.fin v⟩ (F.fin y)
      = F.fin (u + (v - u) * y) := by
  rw [linearTrans_inverse_fin 0 1 u v y (by norm_num)]
  norm_num

/-! ## Claim theorems: transformations and the newer Scale -/

/-- Claim C1, counterexample.  The claim asserts
`Inverse(from, to, Trans(from, to, x)) = x` and in particular
`LinearTrans.Inverse(from=[10,20], to=[100,200], 120) = 12`.  The
source `Inverse` has the same body as `Trans` (it maps `from`
coordinates to `to` coordinates), so at the claim's own example, with
`from = [10,20]` nondegenerate and `x = 12` strictly inside it, the
round trip returns 1200, not 12. -/
theorem linearTrans_claimed_roundtrip_false :
    F.lt (F.fin 10) (F.fin 12) = true ∧ F.lt (F.fin 12) (F.fin 20) = true ∧
    F.beq (F.fin 10) (F.fin 20) = false ∧
    LinearTrans.Trans ⟨F.fin 10, F.fin 20⟩ ⟨F.fin 100, F.fin 200⟩ (F.fin 12) = F.fin 120 ∧
    LinearTrans.Inverse ⟨F.fin 10, F.fin 20⟩ ⟨F.fin 100, F.fin 200⟩ (F.fin 120) = F.fin 1200 ∧
    F.fin 1200 ≠ F.fin 12 := by
  refine ⟨by norm_num [F.lt], by norm_num [F.lt], by norm_num [F.beq], ?_, ?_, by simp⟩
  · norm_num [LinearTrans, F.add, F.sub, F.mul, F.div, F.neg]
  · norm_num [LinearTrans, F.add, F.sub, F.mul, F.div, F.neg]

/-- Claim C1, amended.  `Inverse` inverts `Trans` when called with the
two intervals swapped: for nondegenerate finite `from = [a,b]` and
`to = [u,v]` and `x` strictly inside `from`,
`Inverse(to, from, Trans(from, to, x)) = x` (exactly, in the rational
model); in particular `Inverse([100,200], [10,20], 120) = 12`. -/
theorem linearTrans_inverse_swapped_roundtrip (a b u v x : ℚ)
    (hab : a ≠ b) (huv : u ≠ v) (_hx1 : a < x) (_hx2 : x < b) :
    LinearTrans.Inverse ⟨F.fin u, F.fin v⟩ ⟨F.fin a, F.fin b⟩
      (LinearTrans.Trans ⟨F.fin a, F.fin b⟩ ⟨F.fin u, F.fin v⟩ (F.fin x)) = F.fin x := by
  have hba : b - a ≠ 0 := sub_ne_zero.mpr (Ne.symm hab)
  have hvu : v - u ≠ 0 := sub_ne_zero.mpr (Ne.symm huv)
  rw [linearTrans_trans_fin a b u v x hba, linearTrans_inverse_fin u v a b _ hvu]
  congr 1
  field_simp
  ring

/-- Witness for `linearTrans_inverse_swapped_roundtrip` at the numbers
of the claim example. -/
theorem linearTrans_inverse_swapped_roundtrip_witness :
    LinearTrans.Inverse ⟨F.fin 100, F.fin 200⟩ ⟨F.fin 10, F.fin 20⟩
      (LinearTrans.Trans ⟨F.fin 10, F.fin 20⟩ ⟨F.fin 100, F.fin 200⟩ (F.fin 12)) = F.fin 12 :=
  linearTrans_inverse_swapped_roundtrip 10 20 100 200 12
    (by norm_num) (by norm_num) (by norm_num) (by norm_num)

/-- Claim C2.  The first half of the claim holds: `Map` is exactly
`Trans.Trans(Limit, {0,1}, x)`.  The second half is the promise of the
doc comment of `Map` (NaN for an unset or degenerate `Limit`), but the
guard implementing it sits after an unconditional `return` and is dead:
a fresh `NewScale` has an unset `Limit` and the identity transformation,
and `Map(7)` returns 7, not NaN. -/
theorem scale_map_nan_guard_dead :
    (∀ (s : Scale) (x : F), s.Map x = s.Trans.Trans s.Limit ⟨F.fin 0, F.fin 1⟩ x) ∧
    NewScale.Limit.Min.isNaN = true ∧ NewScale.Limit.Max.isNaN = true ∧
    NewScale.Map (F.fin 7) = F.fin 7 ∧ (NewScale.Map (F.fin 7)).isNaN = false := by
  refine ⟨fun s x => rfl, rfl, rfl, ?_, ?_⟩ <;>
    norm_num [NewScale, Scale.Map, IdentityTrans, F.isNaN]

/-- The scale exhibiting the C3 counterexample: a fresh `NewScale`
whose `Data` has been learned as `[3,7]`. -/
def c3Scale : Scale := { NewScale with Data := ⟨F.fin 3, F.fin 7⟩ }

/-- Claim C3, counterexample.  A scale with data `[3,7]`, unset
`MinRange`/`MaxRange` and zero expansion satisfies every hypothesis of
the claim, yet after one `Autoscale()` its `Limit` is `[0,1]`, not
`Data`: `applyExpansion` feeds the fractional overshoots 0 and 1
through `Trans.Inverse`, and the default `IdentityTrans` returns them
unchanged instead of mapping them into data units. -/
theorem autoscale_identity_limit_ne_data :
    c3Scale.HasData = true ∧
    c3Scale.MinRange = UnsetInterval ∧ c3Scale.MaxRange = UnsetInterval ∧
    c3Scale.Expand.Absolute = F.fin 0 ∧ c3Scale.Expand.Releative = F.fin 0 ∧
    c3Scale.Autoscale.Limit = ⟨F.fin 0, F.fin 1⟩ ∧
    c3Scale.Autoscale.Limit ≠ c3Scale.Data := by
  refine ⟨rfl, rfl, rfl, rfl, rfl, ?_, ?_⟩ <;>
    norm_num [c3Scale, NewScale, Scale.Autoscale, Scale.applyExpansion, Scale.HasData,
      Scale.MinRange, Scale.MaxRange, Scale.Expand, UnsetInterval, IdentityTrans,
      F.beq, F.lt, F.isNaN, F.add, F.sub, F.mul, F.div, F.neg]

/-- Claim C3, amended.  For a scale whose transformation is
`LinearTrans` (rather than the `NewScale` default `IdentityTrans`),
finite `Data`, unset `MinRange` and `MaxRange` and zero expansion, one
`Autoscale()` makes `Limit` equal to `Data`. -/
theorem autoscale_linear_zero_expansion_limit_eq_data (s : Scale) (a b : ℚ)
    (hd : s.Data = ⟨F.fin a, F.fin b⟩)
    (hmin : s.MinRange = UnsetInterval) (hmax : s.MaxRange = UnsetInterval)
    (habs : s.Expand.Absolute = F.fin 0) (hrel : s.Expand.Releative = F.fin 0)
    (htr : s.Trans = LinearTrans) :
    s.Autoscale.Limit = s.Data := by
  obtain ⟨T, D, L, R, tr, st, ⟨⟨ea, er⟩, mr, xr⟩⟩ := s
  simp only [Scale.MinRange, Scale.MaxRange, Scale.Expand] at hmin hmax habs hrel
  simp only at hd htr habs hrel
  subst hd htr habs hrel hmin hmax
  simp only [Scale.Autoscale, Scale.applyExpansion, Scale.HasData, Scale.MinRange,
    Scale.MaxRange, Scale.Expand, UnsetInterval]
  norm_num [linearTrans_inverse_unit]

/-- Witness for `autoscale_linear_zero_expansion_limit_eq_data`. -/
theorem autoscale_linear_zero_expansion_limit_eq_data_witness :
    ({ NewScale with Data := ⟨F.fin 3, F.fin 7⟩, Trans := LinearTrans } : Scale).Autoscale.Limit
      = ⟨F.fin 3, F.fin 7⟩ :=
  autoscale_linear_zero_expansion_limit_eq_data _ 3 7 rfl rfl rfl rfl rfl rfl

/-- Claim C7.  A degenerate non-NaN `MinRange = [m,m]` pins
`Limit.Min` to `m` after `Autoscale()`, whatever the learned `Data`
interval: the pinned branch skips both the expansion and the clipping
of that edge, and the right-edge code never writes `Limit.Min`. -/
theorem autoscale_degenerate_minrange_pins_min (s : Scale) (m : ℚ)
    (hd : s.HasData = true)
    (h1 : s.MinRange.Min = F.fin m) (h2 : s.MinRange.Max = F.fin m) :
    s.Autoscale.Limit.Min = F.fin m := by
  unfold Scale.Autoscale
  rw [hd]
  simp only [h1, h2, Bool.not_true, Bool.false_eq_true, if_false, F.beq_fin_fin,
    decide_eq_true_eq, if_pos rfl]
  split_ifs <;> simp [applyExpansion_false_limit_min]

/-- Witness for `autoscale_degenerate_minrange_pins_min`: data `[0,10]`
with `Data.Min = 0 < 5` and `MinRange = {5,5}` still yields
`Limit.Min = 5`. -/
theorem autoscale_degenerate_minrange_pins_min_witness :
    ({ NewScale with
        Data := ⟨F.fin 0, F.fin 10⟩
        Autoscaling := { NewScale.Autoscaling with MinRange := ⟨F.fin 5, F.fin 5⟩ } }
      : Scale).Autoscale.Limit.Min = F.fin 5 :=
  autoscale_degenerate_minrange_pins_min _ 5 rfl rfl rfl

/-- Claim C8, counterexample.  The claim quantifies over every `to`
interval and every `from` with `from.Max != 0`; a NaN `from.Max`
satisfies the Go comparison `from.Max != 0`, yet propagates through the
linear map so that `SqrtTransFix0.Trans(from, to, 0)` is NaN, not 0. -/
theorem sqrtTransFix0_zero_claim_false_at_nan :
    F.beq F.nan (F.fin 0) = false ∧
    SqrtTransFix0.Trans ⟨F.fin 0, F.nan⟩ ⟨F.fin 0, F.fin 1⟩ (F.fin 0) = F.nan ∧
    F.nan ≠ F.fin 0 := by
  refine ⟨rfl, ?_, by simp⟩
  norm_num [SqrtTransFix0, LinearTrans, F.add, F.sub, F.mul, F.div, F.neg, F.sqrt]

/-- Claim C8, amended.  For every `from` whose `Max` is a non-NaN value
different from 0 and every `to` whose `Max` is finite,
`SqrtTransFix0.Trans(from, to, 0) = 0`: both `from.Min` and `to.Min`
are forced to 0, the numerator of the linear map collapses to 0, and
the square root of 0 is 0. -/
theorem sqrtTransFix0_maps_zero_to_zero (fromI toI : Interval) (v : ℚ)
    (h1 : fromI.Max.isNaN = false) (h2 : F.beq fromI.Max (F.fin 0) = false)
    (h3 : toI.Max = F.fin v) :
    SqrtTransFix0.Trans fromI toI (F.fin 0) = F.fin 0 := by
  rcases fromI with ⟨fmin, fmax⟩
  rcases toI with ⟨tmin, tmax⟩
  simp only at h3
  subst h3
  cases fmax with
  | nan => simp [F.isNaN] at h1
  | inf s =>
      norm_num [SqrtTransFix0, LinearTrans, F.add, F.sub, F.mul, F.div, F.neg, F.sqrt,
        F.sqrtQ, Nat.sqrt_zero, Nat.sqrt_one]
  | fin u =>
      have hu : u ≠ 0 := by simpa [F.beq] using h2
      norm_num [SqrtTransFix0, LinearTrans, F.add, F.sub, F.mul, F.div, F.neg, F.sqrt,
        F.sqrtQ, hu, Nat.sqrt_zero, Nat.sqrt_one]

/-- Witness for `sqrtTransFix0_maps_zero_to_zero` at the fixture of
`trans_test.go`: `from = [10,20]`, `to = [3,4]`, `x = 0` maps to 0. -/
theorem sqrtTransFix0_maps_zero_to_zero_witness :
    SqrtTransFix0.Trans ⟨F.fin 10, F.fin 20⟩ ⟨F.fin 3, F.fin 4⟩ (F.fin 0) = F.fin 0 :=
  sqrtTransFix0_maps_zero_to_zero _ _ 4 rfl (by norm_num [F.beq]) rfl

/-- Claim C9, counterexample.  `Interval.Equal` returns as soon as
`i.Min` is NaN, ignoring the `Max` bounds entirely: `[NaN,1]` and
`[NaN,2]` compare equal although their `Max` bounds are different
numbers, contradicting the claimed independent bound-by-bound
semantics. -/
theorem interval_equal_ignores_max_when_min_nan :
    Interval.Equal ⟨F.nan, F.fin 1⟩ ⟨F.nan, F.fin 2⟩ = true ∧
    ¬ (F.fin 1 = F.fin 2 ∨ ((F.fin 1).isNaN = true ∧ (F.fin 2).isNaN = true)) := by
  constructor
  · rfl
  · rintro (h | ⟨h, -⟩) <;> simp [F.isNaN] at h

/-- Claim C9, amended.  `Equal` is sequential, not bound-by-bound:
if `i.Min` is NaN the result is just whether `j.Min` is NaN; otherwise
if `i.Max` is NaN the result is just whether `j.Max` is NaN; only when
both bounds of `i` are numbers are the two bounds compared. -/
theorem interval_equal_characterization (i j : Interval) :
    Interval.Equal i j = true ↔
      (if i.Min.isNaN = true then j.Min.isNaN = true
       else if i.Max.isNaN = true then j.Max.isNaN = true
       else i.Min = j.Min ∧ i.Max = j.Max) := by
  unfold Interval.Equal
  rcases i with ⟨imin, imax⟩
  by_cases h1 : imin.isNaN = true
  · simp [h1]
  · have h1f : imin.isNaN = false := by simpa using h1
    by_cases h2 : imax.isNaN = true
    · simp [h1f, h2]
    · have h2f : imax.isNaN = false := by simpa using h2
      simp only [h1f, h2f, Bool.false_eq_true, if_false, Bool.and_eq_true]
      rw [F.beq_eq_true_iff _ _ h1f, F.beq_eq_true_iff _ _ h2f]

/-! ## Claim C5: Interval.Update fold laws -/

/-- The finite values in a list of floats, in order. -/
def finiteVals (l : List F) : List ℚ :=
  l.filterMap fun x => match x with
    | F.fin q => some q
    | _ => none

@[simp] theorem finiteVals_nil : finiteVals [] = [] := rfl

@[simp] theorem finiteVals_cons_nan (l : List F) :
    finiteVals (F.nan :: l) = finiteVals l := rfl

@[simp] theorem finiteVals_cons_fin (q : ℚ) (l : List F) :
    finiteVals (F.fin q :: l) = q :: finiteVals l := rfl

@[simp] theorem update1_nan (i : Interval) : i.update1 F.nan = i := rfl

@[simp] theorem update1_unset_fin (q : ℚ) :
    UnsetInterval.update1 (F.fin q) = ⟨F.fin q, F.fin q⟩ := rfl

/-- Folding a finite value into a finite interval takes the pointwise
min and max (ties replace, which does not change the value). -/
theorem update1_fin_fin (a b q : ℚ) :
    Interval.update1 ⟨F.fin a, F.fin b⟩ (F.fin q) = ⟨F.fin (min a q), F.fin (max b q)⟩ := by
  unfold Interval.update1
  by_cases h1 : a < q <;> by_cases h2 : q < b
  · simp [h1, h2, min_eq_left h1.le, max_eq_left h2.le]
  · simp [h1, h2, min_eq_left h1.le, max_eq_right (le_of_not_lt h2)]
  · simp [h1, h2, min_eq_right (le_of_not_lt h1), max_eq_left h2.le]
  · simp [h1, h2, min_eq_right (le_of_not_lt h1), max_eq_right (le_of_not_lt h2)]

/-- `update1` on a non-NaN value updates the two edges independently. -/
theorem update1_components (mn mx : F) (v : F) (hv : v.isNaN = false) :
    Interval.update1 ⟨mn, mx⟩ v
      = ⟨if F.lt mn v then mn else v, if F.lt v mx then mx else v⟩ := by
  unfold Interval.update1
  simp only [hv, Bool.false_eq_true, if_false]
  split_ifs <;> simp_all

/-- Specialisation of `update1_components` to a finite value. -/
theorem update1_fin_components (mn mx : F) (q : ℚ) :
    Interval.update1 ⟨mn, mx⟩ (F.fin q)
      = ⟨if F.lt mn (F.fin q) then mn else F.fin q,
         if F.lt (F.fin q) mx then mx else F.fin q⟩ :=
  update1_components mn mx (F.fin q) rfl

/-- Left-edge step commutes for finite inputs. -/
theorem updmin_comm (m : F) (p q : ℚ) :
    (if F.lt (if F.lt m (F.fin p) then m else F.fin p) (F.fin q) then
      (if F.lt m (F.fin p) then m else F.fin p) else F.fin q)
    = (if F.lt (if F.lt m (F.fin q) then m else F.fin q) (F.fin p) then
      (if F.lt m (F.fin q) then m else F.fin q) else F.fin p) := by
  have base : ∀ x y : ℚ,
      (if F.lt (F.fin x) (F.fin y) then F.fin x else F.fin y)
        = (if F.lt (F.fin y) (F.fin x) then F.fin y else F.fin x) := by
    intro x y
    rcases lt_trichotomy x y with h | h | h
    · simp [h, asymm h]
    · simp [h]
    · simp [h, asymm h]
  cases m with
  | nan => simpa [F.lt] using base p q
  | inf s =>
      cases s with
      | false => simp [F.lt]
      | true => simpa [F.lt] using base p q
  | fin a =>
      by_cases h1 : a < p <;> by_cases h2 : a < q
      · simp [h1, h2]
      · have hqp : q < p := lt_of_le_of_lt (le_of_not_lt h2) h1
        simp [h1, h2, hqp]
      · have hpq : p < q := lt_of_le_of_lt (le_of_not_lt h1) h2
        simp [h1, h2, hpq]
      · simpa [h1, h2] using base p q

/-- Right-edge step commutes for finite inputs. -/
theorem updmax_comm (m : F) (p q : ℚ) :
    (if F.lt (F.fin q) (if F.lt (F.fin p) m then m else F.fin p) then
      (if F.lt (F.fin p) m then m else F.fin p) else F.fin q)
    = (if F.lt (F.fin p) (if F.lt (F.fin q) m then m else F.fin q) then
      (if F.lt (F.fin q) m then m else F.fin q) else F.fin p) := by
  have base : ∀ x y : ℚ,
      (if F.lt (F.fin y) (F.fin x) then F.fin x else F.fin y)
        = (if F.lt (F.fin x) (F.fin y) then F.fin y else F.fin x) := by
    intro x y
    rcases lt_trichotomy x y with h | h | h
    · simp [h, asymm h]
    · simp [h]
    · simp [h, asymm h]
  cases m with
  | nan => simpa [F.lt] using base p q
  | inf s =>
      cases s with
      | false => simpa [F.lt] using base p q
      | true => simp [F.lt]
  | fin a =>
      by_cases h1 : p < a <;> by_cases h2 : q < a
      · simp [h1, h2]
      · have hpq : p < q := lt_of_lt_of_le h1 (le_of_not_lt h2)
        simp [h1, h2, hpq]
      · have hqp : q < p := lt_of_lt_of_le h2 (le_of_not_lt h1)
        simp [h1, h2, hqp]
      · simpa [h1, h2] using base p q

/-- `update1` is right-commutative on NaN-or-finite inputs. -/
theorem update1_comm (i : Interval) (x y : F)
    (hx : x.isNaN = true ∨ ∃ p, x = F.fin p)
    (hy : y.isNaN = true ∨ ∃ p, y = F.fin p) :
    (i.update1 x).update1 y = (i.update1 y).update1 x := by
  rcases hx with hx | ⟨p, rfl⟩
  · cases x <;> simp_all [F.isNaN]
  rcases hy with hy | ⟨q, rfl⟩
  · cases y <;> simp_all [F.isNaN]
  rcases i with ⟨mn, mx⟩
  rw [update1_fin_components mn mx p, update1_fin_components _ _ q,
    update1_fin_components mn mx q, update1_fin_components _ _ p]
  exact congrArg₂ Interval.mk (updmin_comm mn p q) (updmax_comm mx p q)

/-- Fold of NaN-or-finite values from a finite interval computes the
running min and max over the finite values. -/
theorem update_fold_fin (l : List F)
    (hl : ∀ x ∈ l, x.isNaN = true ∨ ∃ q, x = F.fin q) :
    ∀ a b : ℚ, Interval.Update ⟨F.fin a, F.fin b⟩ l
      = ⟨F.fin ((finiteVals l).foldl min a), F.fin ((finiteVals l).foldl max b)⟩ := by
  induction l with
  | nil => intro a b; rfl
  | cons x xs ih =>
      intro a b
      have hx := hl x (List.mem_cons_self x xs)
      have hxs : ∀ y ∈ xs, y.isNaN = true ∨ ∃ q, y = F.fin q :=
        fun y hy => hl y (List.mem_cons_of_mem x hy)
      rcases hx with hx | ⟨q, rfl⟩
      · cases x with
        | nan => simpa [Interval.Update] using ih hxs a b
        | inf s => simp [F.isNaN] at hx
        | fin q => simp [F.isNaN] at hx
      · show Interval.Update (Interval.update1 ⟨F.fin a, F.fin b⟩ (F.fin q)) xs = _
        rw [update1_fin_fin]
        simpa using ih hxs (min a q) (max b q)

/-- Claim C5.  `Interval.Update` on NaN-or-finite float values obeys
the fold laws: NaN is a no-op, a single finite value `v` folded into a
fresh unset interval gives `[v,v]`, a list with at least one finite
value gives exactly `[min of the finite values, max of the finite
values]`, the fold is invariant under permutation, under regrouping of
the variadic calls, and under repetition of a value. -/
theorem interval_update_fold_laws :
    (∀ i : Interval, i.update1 F.nan = i) ∧
    (∀ v : ℚ, UnsetInterval.Update [F.fin v] = ⟨F.fin v, F.fin v⟩) ∧
    (∀ (l : List F) (q : ℚ) (qs : List ℚ),
      (∀ x ∈ l, x.isNaN = true ∨ ∃ p, x = F.fin p) →
      finiteVals l = q :: qs →
      UnsetInterval.Update l = ⟨F.fin (qs.foldl min q), F.fin (qs.foldl max q)⟩) ∧
    (∀ (i : Interval) (l l' : List F),
      (∀ x ∈ l, x.isNaN = true ∨ ∃ p, x = F.fin p) → l.Perm l' →
      i.Update l = i.Update l') ∧
    (∀ (i : Interval) (xs ys : List F), i.Update (xs ++ ys) = (i.Update xs).Update ys) ∧
    (∀ (v : F) (l : List F), UnsetInterval.Update (v :: v :: l) = UnsetInterval.Update (v :: l)) := by
  refine ⟨fun i => rfl, fun v => rfl, ?_, ?_, ?_, ?_⟩
  · intro l q qs hl hfv
    induction l with
    | nil => simp at hfv
    | cons x xs ih =>
        have hx := hl x (List.mem_cons_self x xs)
        have hxs : ∀ y ∈ xs, y.isNaN = true ∨ ∃ p, y = F.fin p :=
          fun y hy => hl y (List.mem_cons_of_mem x hy)
        rcases hx with hx | ⟨p, rfl⟩
        · cases x with
          | nan =>
              simp only [finiteVals_cons_nan] at hfv
              simpa [Interval.Update] using ih hxs hfv
          | inf s => simp [F.isNaN] at hx
          | fin p =>
              simp only [finiteVals_cons_fin] at hfv
              obtain ⟨rfl, rfl⟩ : p = q ∧ finiteVals xs = qs :=
                ⟨List.head_eq_of_cons_eq hfv, List.tail_eq_of_cons_eq hfv⟩
              show Interval.Update (UnsetInterval.update1 (F.fin p)) xs = _
              rw [update1_unset_fin]
              exact update_fold_fin xs hxs p p
        · simp only [finiteVals_cons_fin] at hfv
          obtain ⟨rfl, rfl⟩ : p = q ∧ finiteVals xs = qs :=
            ⟨List.head_eq_of_cons_eq hfv, List.tail_eq_of_cons_eq hfv⟩
          show Interval.Update (UnsetInterval.update1 (F.fin p)) xs = _
          rw [update1_unset_fin]
          exact update_fold_fin xs hxs p p
  · intro i l l' hl hperm
    exact hperm.foldl_eq' (fun x hx y hy z =>
      update1_comm z x y (hl x hx) (hl y hy)) i
  · intro i xs ys
    exact List.foldl_append ..
  · intro v l
    cases v with
    | nan => rfl
    | inf s => cases s <;> rfl
    | fin q =>
        show Interval.Update ((UnsetInterval.update1 (F.fin q)).update1 (F.fin q)) l
          = Interval.Update (UnsetInterval.update1 (F.fin q)) l
        rw [update1_unset_fin, update1_fin_fin, min_self, max_self]

/-- Witness for `interval_update_fold_laws`: folding `[3, NaN, 1]`
into a fresh unset interval yields `[1,3]`. -/
theorem interval_update_fold_laws_witness :
    UnsetInterval.Update [F.fin 3, F.nan, F.fin 1] = ⟨F.fin 1, F.fin 3⟩ := by
  have h := interval_update_fold_laws.2.2.1 [F.fin 3, F.nan, F.fin 1] 3 [1]
    (by
      intro x hx
      simp only [List.mem_cons, List.not_mem_nil, or_false] at hx
      rcases hx with rfl | rfl | rfl
      exacts [Or.inr ⟨3, rfl⟩, Or.inl rfl, Or.inr ⟨1, rfl⟩]) rfl
  rw [h]
  norm_num

/-! ## The older Scale draft (src/unnamed/part_004)

`src/facet.go` (the `Plot` coordinator) is written against this older
draft of the Scale type: the scale embeds its output `Interval`
directly (promoted fields `s.Min`/`s.Max`, modelled here as the field
`Iv`), autoscaling is the lower-case `autoscale` with an `ext` computed
from `Expand.Releative*(Data.Max-Data.Min)+Expand.Absolut`, and the
conversion closures `DataToUnit`/`UnitToData`, the `ColorMap` and the
`SizeMap` live on the scale.  `Values`, `TimeFmt` and `T0` are omitted
(cosmetic, untouched by every claim). -/

/-- `plot.Tick` (external gonum type): a value and a label. -/
structure Tick where
  Value : F
  Label : String

/-- `plot.Ticker` (external contract): `ref` models Go interface
identity (pointer equality); `Ticks` generates the tick list. -/
structure Ticker where
  ref : Nat
  Ticks : F → F → List Tick

/-- An RGBA color. -/
structure Color where
  r : Nat
  g : Nat
  b : Nat
  a : Nat
deriving DecidableEq

/-- `palette.ColorMap` (external contract): `ref` models Go interface
identity, `mn`/`mx` the mutable min and max bounds set through
`SetMin`/`SetMax`, and `AtF` the color lookup, which receives the
current bounds.  The `error` return of `At` is dropped, as every caller
in the verified code discards it. -/
structure ColorMap where
  ref : Nat
  mn : F
  mx : F
  AtF : F → F → F → Color

/-- `ColorMap.At`. -/
def ColorMap.At (cm : ColorMap) (t : F) : Color := cm.AtF cm.mn cm.mx t

/-- The anonymous `Expand` struct of the older `Autoscaling`; note the
source spelling `Absolut`. -/
structure ExpandOld where
  Absolut : F
  Releative : F

/-- `Autoscaling` from `src/unnamed/part_004`. -/
structure AutoscalingOld where
  Expand : ExpandOld
  MinRange : Interval
  MaxRange : Interval

/-- `Scale` from `src/unnamed/part_004`.  `Iv` is the embedded
`Interval` (Go promotes it to `s.Min` and `s.Max`). -/
structure ScaleOld where
  Title : String
  Data : Interval
  Iv : Interval
  ScaleType : ScaleType
  Autoscaling : AutoscalingOld
  Ticker : Option Ticker
  ColorMap : Option ColorMap
  DataToUnit : Option (F → F)
  UnitToData : Option (F → F)
  SizeMap : Option (F → F)

/-- Promoted field of the embedded `Autoscaling`. -/
def ScaleOld.MinRange (s : ScaleOld) : Interval := s.Autoscaling.MinRange

/-- Promoted field of the embedded `Autoscaling`. -/
def ScaleOld.MaxRange (s : ScaleOld) : Interval := s.Autoscaling.MaxRange

/-- Promoted field of the embedded `Autoscaling`. -/
def ScaleOld.Expand (s : ScaleOld) : ExpandOld := s.Autoscaling.Expand

/-- `NewScale` from `src/unnamed/part_004`: linear scale, unset
intervals, relative expansion 0.05. -/
def NewScaleOld : ScaleOld :=
  { Title := ""
    Data := UnsetInterval
    Iv := UnsetInterval
    ScaleType := ScaleType.Linear
    Autoscaling :=
      { Expand := { Absolut := F.fin 0, Releative := F.fin (1/20) }
        MinRange := UnsetInterval
        MaxRange := UnsetInterval }
    Ticker := none
    ColorMap := none
    DataToUnit := none
    UnitToData := none
    SizeMap := none }

/-- `Scale.UpdateData` (older draft): fold both edges of `i` into `Data`. -/
def ScaleOld.UpdateData (s : ScaleOld) (i : Interval) : ScaleOld :=
  { s with Data := (s.Data.update1 i.Min).update1 i.Max }

/-- `Scale.HasData` (older draft). -/
def ScaleOld.HasData (s : ScaleOld) : Bool :=
  !s.Data.Min.isNaN && !s.Data.Max.isNaN

/-- `Scale.MapColor` from `src/unnamed/part_004`: transparent when
`DataToUnit` or `ColorMap` is nil, otherwise the unit value is clamped
into `[0,1]` (a NaN unit value passes both clamps unchanged) and
looked up in the color map. -/
def ScaleOld.MapColor (s : ScaleOld) (x : F) : Color :=
  match s.DataToUnit, s.ColorMap with
  | some d2u, some cm =>
      let t := d2u x
      let t := if F.lt t (F.fin 0) then F.fin 0
               else if F.lt (F.fin 1) t then F.fin 1 else t
      cm.At t
  | _, _ => ⟨0, 0, 0, 0⟩

/-- `Scale.autoscale` from `src/unnamed/part_004`: for each edge, a
degenerate non-NaN `MinRange`/`MaxRange` pins the edge, otherwise the
edge starts from `Data`, is expanded by `ext` (by scale type) and
clipped into the allowed range. -/
def ScaleOld.autoscale (s : ScaleOld) : ScaleOld :=
  if !s.HasData then s
  else
    let ext := s.Expand.Releative * (s.Data.Max - s.Data.Min) + s.Expand.Absolut
    let s1 :=
      if F.beq s.MinRange.Min s.MinRange.Max then
        { s with Iv := { s.Iv with Min := s.MinRange.Min } }
      else
        let t := { s with Iv := { s.Iv with Min := s.Data.Min } }
        let t :=
          match t.ScaleType with
          | ScaleType.Linear | ScaleType.Time =>
              { t with Iv := { t.Iv with Min := t.Iv.Min - ext } }
          | ScaleType.Discrete =>
              { t with Iv := { t.Iv with Min := t.Iv.Min - (F.fin (1/2) + ext) } }
          | ScaleType.Logarithmic =>
              { t with Iv := { t.Iv with Min := t.Iv.Min / t.Expand.Absolut } }
        let t := if F.lt t.Iv.Min t.MinRange.Min then
            { t with Iv := { t.Iv with Min := t.MinRange.Min } } else t
        let t := if F.lt t.MinRange.Max t.Iv.Min then
            { t with Iv := { t.Iv with Min := t.MinRange.Max } } else t
        t
    if F.beq s1.MaxRange.Min s1.MaxRange.Max then
      { s1 with Iv := { s1.Iv with Max := s1.MaxRange.Min } }
    else
      let t := { s1 with Iv := { s1.Iv with Max := s1.Data.Max } }
      let t :=
        match t.ScaleType with
        | ScaleType.Linear | ScaleType.Time =>
            { t with Iv := { t.Iv with Max := t.Iv.Max + ext } }
        | ScaleType.Discrete =>
            { t with Iv := { t.Iv with Max := t.Iv.Max + (F.fin (1/2) + ext) } }
        | ScaleType.Logarithmic =>
            { t with Iv := { t.Iv with Max := t.Iv.Max * t.Expand.Absolut } }
      let t := if F.lt t.Iv.Max t.MaxRange.Min then
          { t with Iv := { t.Iv with Max := t.MaxRange.Min } } else t
      let t := if F.lt t.MaxRange.Max t.Iv.Max then
          { t with Iv := { t.Iv with Max := t.MaxRange.Max } } else t
      t

/-- `Scale.buildConversionFuncs` from `src/unnamed/part_004`.  For the
`Logarithmic` case the Go source panics with an unimplemented TODO;
the model returns the scale unchanged, and no verified statement
constructs a `Logarithmic` scale.  The closures capture the current
`Min` and `Max` values (the Go closures capture the scale pointer, but
no later pipeline stage mutates those fields). -/
def ScaleOld.buildConversionFuncs (s : ScaleOld) : ScaleOld :=
  match s.ScaleType with
  | ScaleType.Linear | ScaleType.Time | ScaleType.Discrete =>
      { s with
          DataToUnit := some (fun d => (d - s.Iv.Min) / (s.Iv.Max - s.Iv.Min))
          UnitToData := some (fun u => u * (s.Iv.Max - s.Iv.Min) + s.Iv.Min) }
  | ScaleType.Logarithmic => s

/-! ## The Plot coordinator (src/facet.go, `Plot` draft)

Shared scales are Go pointers; following the arena strategy the model
stores every scale in `store` and panels and axes hold indices: two
axes alias one scale exactly when they hold the same index.  A geom is
represented by what `learnDataRange` consumes from it: either its
`AllDataRanges()` result (a vector of one interval per scale index) or
its `DataRange()` result. -/

/-- A geom, reduced to its data-range report. -/
inductive GeomM where
  | adr (dr : Nat → Interval)
  | sdr (xmin xmax ymin ymax : F)

/-- A panel: its list of geoms. -/
structure PanelM where
  Geoms : List GeomM

/-- The `Plot` struct of `src/facet.go`, with scale pointers replaced
by indices into `store`. -/
structure PlotM where
  Rows : Nat
  Cols : Nat
  Panels : List (List PanelM)
  XScales : List Nat
  YScales : List Nat
  Scales : List Nat
  store : List ScaleOld

/-- Dereference a scale pointer. -/
def PlotM.getS (f : PlotM) (id : Nat) : ScaleOld := f.store.getD id NewScaleOld

/-- Write through a scale pointer. -/
def PlotM.setS (f : PlotM) (id : Nat) (s : ScaleOld) : PlotM :=
  { f with store := f.store.set id s }

/-- Mutate through a scale pointer. -/
def PlotM.modifyS (f : PlotM) (id : Nat) (m : ScaleOld → ScaleOld) : PlotM :=
  f.setS id (m (f.getS id))

/-- `NewPlot` from `src/facet.go`: `cols` X-axis slots and `rows`
Y-axis slots, all sharing one scale unless free, plus the seven
aesthetic slots, each a fresh scale.  Panels start with no geoms. -/
def NewPlot (rows cols : Nat) (freeX freeY : Bool) : PlotM :=
  let xStore := if freeX then List.replicate cols NewScaleOld else [NewScaleOld]
  let xIds := if freeX then List.range cols else List.replicate cols 0
  let nx := xStore.length
  let yStore := if freeY then List.replicate rows NewScaleOld else [NewScaleOld]
  let yIds := if freeY then (List.range rows).map (· + nx) else List.replicate rows nx
  let ny := yStore.length
  { Rows := rows
    Cols := cols
    Panels := List.replicate rows (List.replicate cols ⟨[]⟩)
    XScales := xIds
    YScales := yIds
    Scales := (List.range 7).map (· + nx + ny)
    store := xStore ++ yStore ++ List.replicate 7 NewScaleOld }

/-- The body of the geom loop of `learnDataRange`: an `AllDataRanger`
contributes one interval per scale slot; a plain `DataRanger`
contributes its x and y extents to the embedded output interval of the
current X and Y scales (that is what the promoted
`f.Scales[XScale].Update(xmin)` writes to in the older scale draft). -/
def PlotM.applyGeom (f : PlotM) (g : GeomM) : PlotM :=
  match g with
  | GeomM.adr dr =>
      (List.range 7).foldl
        (fun f i => f.modifyS (f.Scales.getD i 0) (fun s => s.UpdateData (dr i))) f
  | GeomM.sdr xmin xmax ymin ymax =>
      let f := f.modifyS (f.Scales.getD 0 0)
        (fun s => { s with Iv := (s.Iv.update1 xmin).update1 xmax })
      f.modifyS (f.Scales.getD 1 0)
        (fun s => { s with Iv := (s.Iv.update1 ymin).update1 ymax })

/-- `Plot.learnDataRange` from `src/facet.go`: walk the panel grid,
aliasing `Scales[XScale]` and `Scales[YScale]` to the scale of the
current column and row, and fold every geom data report into the
scales it references. -/
def PlotM.learnDataRange (f : PlotM) : PlotM :=
  (List.range f.Rows).foldl (fun f row =>
    let f := { f with Scales := f.Scales.set 1 (f.YScales.getD row 0) }
    (List.range f.Cols).foldl (fun f col =>
      let f := { f with Scales := f.Scales.set 0 (f.XScales.getD col 0) }
      (((f.Panels.getD row []).getD col ⟨[]⟩).Geoms).foldl PlotM.applyGeom f) f) f

/-- `Plot.applyToScales` from `src/facet.go`: apply `m` to every scale
reachable from the X slots, the Y slots and the aesthetic slots,
visiting every distinct scale exactly once (the `done` set is keyed by
pointer identity, modelled by the index). -/
def PlotM.applyToScales (f : PlotM) (m : ScaleOld → ScaleOld) : PlotM :=
  ((f.XScales ++ f.YScales ++ f.Scales).foldl
    (fun acc id =>
      if acc.2.contains id then acc
      else (acc.1.modifyS id m, id :: acc.2))
    (f, ([] : List Nat))).1

/-- One scale step of `deDegenerateXandY`: NaN edges of the embedded
output interval become -1 and 1. -/
def deDegen1 (s : ScaleOld) : ScaleOld :=
  let s := if s.Iv.Min.isNaN then { s with Iv := { s.Iv with Min := F.fin (-1) } } else s
  if s.Iv.Max.isNaN then { s with Iv := { s.Iv with Max := F.fin 1 } } else s

/-- `Plot.deDegenerateXandY` from `src/facet.go` (X and Y scales only;
a shared scale is simply visited once per slot, the repair being
idempotent). -/
def PlotM.deDegenerateXandY (f : PlotM) : PlotM :=
  let f := f.XScales.foldl (fun f id => f.modifyS id deDegen1) f
  f.YScales.foldl (fun f id => f.modifyS id deDegen1) f

/-- `DefaultColorMap` from the repository: a `Rainbow` with value and
saturation 0.9.  Its HSVA-to-RGBA computation lives in the external
gonum palette package; the model keeps the identity and the mutable
bounds and returns an opaque constant color, which no verified
statement inspects. -/
def DefaultColorMap : ColorMap :=
  { ref := 1000, mn := F.fin 0, mx := F.fin 1, AtF := fun _ _ _ => ⟨0, 0, 0, 255⟩ }

/-- `Plot.setupColorAndSizeMaps` from `src/facet.go`: a size scale
with data gets the default size map over `DataToUnit`; fill and color
scales with data get `DefaultColorMap` when they have none, and its
bounds are set to 0 and 1. -/
def PlotM.setupColorAndSizeMaps (f : PlotM) : PlotM :=
  let ssId := f.Scales.getD 3 0
  let ss := f.getS ssId
  let f :=
    if ss.HasData then
      f.setS ssId { ss with SizeMap := some (fun x =>
        let mn := F.fin (1/5)
        let mx := F.fin 10
        mn + ((ss.DataToUnit.getD (fun _ => F.nan)) x) * (mx - mn)) }
    else f
  let fsId := f.Scales.getD 2 0
  let fs := f.getS fsId
  let f :=
    if fs.HasData then
      let cm := fs.ColorMap.getD DefaultColorMap
      f.setS fsId { fs with ColorMap := some { cm with mn := F.fin 0, mx := F.fin 1 } }
    else f
  let csId := f.Scales.getD 4 0
  let cs := f.getS csId
  if cs.HasData then
    let cm := cs.ColorMap.getD DefaultColorMap
    f.setS csId { cs with ColorMap := some { cm with mn := F.fin 0, mx := F.fin 1 } }
  else f

/-- The opening stanza of `Plot.Range`: `UpdateData(unsetInterval())`
on every scale slot (a no-op on the interval values, since `Update`
skips NaN). -/
def PlotM.rangeReset (f : PlotM) : PlotM :=
  let f := f.XScales.foldl (fun f id =>
    f.modifyS id (fun s => s.UpdateData UnsetInterval)) f
  let f := f.YScales.foldl (fun f id =>
    f.modifyS id (fun s => s.UpdateData UnsetInterval)) f
  f.Scales.foldl (fun f id =>
    f.modifyS id (fun s => s.UpdateData UnsetInterval)) f

/-- `Plot.Range` from `src/facet.go`: reset, learn all data ranges,
autoscale every distinct scale once, repair degenerate X and Y scales,
build the conversion closures, and set up the color and size maps. -/
def PlotM.Range (f : PlotM) : PlotM :=
  let f := f.rangeReset
  let f := f.learnDataRange
  let f := f.applyToScales ScaleOld.autoscale
  let f := f.deDegenerateXandY
  let f := f.applyToScales ScaleOld.buildConversionFuncs
  f.setupColorAndSizeMaps

/-- `Plot.MapColor` from `src/facet.go`: panics (modelled as `none`)
unless the requested scale is the color or fill scale, and defers to
the scale's `MapColor`. -/
def PlotM.MapColor (f : PlotM) (s : F) (scale : Nat) : Option Color :=
  if scale ≠ 4 ∧ scale ≠ 2 then none
  else some ((f.getS (f.Scales.getD scale 0)).MapColor s)

/-! ## Guide combination (src/facet.go) -/

/-- Rule 4 of `canCombineScales`: two explicit but distinct tickers
conflict when they produce different tick lists over the respective
scale ranges. -/
def ticksConflict (s1 s2 : ScaleOld) : Bool :=
  match s1.Ticker, s2.Ticker with
  | some t1, some t2 =>
      if t1.ref == t2.ref then false
      else
        let l1 := t1.Ticks s1.Iv.Min s1.Iv.Max
        let l2 := t2.Ticks s2.Iv.Min s2.Iv.Max
        if l1.length ≠ l2.length then true
        else (l1.zip l2).any fun p =>
          !F.beq p.1.Value p.2.Value || p.1.Label ≠ p.2.Label
  | _, _ => false

/-- Rule 5 of `canCombineScales`: two explicit color maps conflict
when they are distinct objects (Go interface inequality, modelled by
the `ref` field). -/
def colorMapsConflict (c1 c2 : Option ColorMap) : Bool :=
  match c1, c2 with
  | some m1, some m2 => m1.ref ≠ m2.ref
  | _, _ => false

/-- `Plot.canCombineScales` from `src/facet.go`: same scale type, same
embedded range, compatible titles, compatible tickers, and -- for the
fill/color pair -- compatible color maps. -/
def PlotM.canCombineScales (f : PlotM) (j k : Nat) : Bool :=
  let s1 := f.getS (f.Scales.getD j 0)
  let s2 := f.getS (f.Scales.getD k 0)
  if s1.ScaleType ≠ s2.ScaleType then false
  else if !F.beq s1.Iv.Min s2.Iv.Min || !F.beq s1.Iv.Max s2.Iv.Max then false
  else if s1.Title ≠ s2.Title ∧ s1.Title ≠ "" ∧ s2.Title ≠ "" then false
  else if ticksConflict s1 s2 then false
  else if ((j == 2 && k == 4) || (k == 2 && j == 4))
      && colorMapsConflict s1.ColorMap s2.ColorMap then false
  else true

/-- The inner loop of `combineGuides`: append `j` to the first
combination every member of which can combine with `j`; if none
accepts, open a new singleton combination at the end. -/
def addToCombinations (can : Nat → Bool) (j : Nat) : List (List Nat) → List (List Nat)
  | [] => [[j]]
  | c :: rest =>
      if c.all can then (c ++ [j]) :: rest
      else c :: addToCombinations can j rest

/-- `Plot.combineGuides` from `src/facet.go`: walk the non-positional
scale indices `FillScale = 2` up to `numScales - 1 = 6`, skip scales
without data, and group the rest greedily. -/
def PlotM.combineGuides (f : PlotM) : List (List Nat) :=
  (List.range' 2 5).foldl
    (fun combos j =>
      if !(f.getS (f.Scales.getD j 0)).HasData then combos
      else addToCombinations (fun k => f.canCombineScales j k) j combos)
    []

/-! ## Claim C6: MapColor on out-of-range input -/

/-- A two-color gradient used as a concrete external color map: red at
0, blue at 1, green elsewhere; no gray occurs anywhere in its range. -/
def c6ColorMap : ColorMap :=
  { ref := 7
    mn := F.fin 0
    mx := F.fin 1
    AtF := fun _ _ t =>
      if F.beq t (F.fin 0) then ⟨255, 0, 0, 255⟩
      else if F.beq t (F.fin 1) then ⟨0, 0, 255, 255⟩
      else ⟨0, 255, 0, 255⟩ }

/-- A color scale over the range `[0,10]` with its conversion closure
built, as the pipeline would leave it. -/
def c6Scale : ScaleOld :=
  ({ NewScaleOld with
      Iv := ⟨F.fin 0, F.fin 10⟩
      ColorMap := some c6ColorMap } : ScaleOld).buildConversionFuncs

/-- Claim C6, counterexample.  For `x = -5`, far below the scale range
`[0,10]`, `MapColor` clamps the unit value to 0 and returns the
gradient endpoint color (red), not a 50-percent-gray fallback; for a
NaN input the unclamped NaN reaches the color map and yields its
fallthrough color (green), again not gray. -/
theorem mapColor_out_of_range_claim_false :
    F.lt (F.fin (-5)) c6Scale.Iv.Min = true ∧
    c6Scale.MapColor (F.fin (-5)) = c6ColorMap.At (F.fin 0) ∧
    c6ColorMap.At (F.fin 0) = ⟨255, 0, 0, 255⟩ ∧
    c6Scale.MapColor (F.fin (-5)) ≠ ⟨128, 128, 128, 255⟩ ∧
    c6Scale.MapColor F.nan = ⟨0, 255, 0, 255⟩ := by
  refine ⟨?_, ?_, rfl, ?_, ?_⟩ <;>
    norm_num [c6Scale, c6ColorMap, NewScaleOld, ScaleOld.buildConversionFuncs,
      ScaleOld.MapColor, ColorMap.At, F.lt, F.beq, F.div, F.sub, F.add, F.neg]

/-- Claim C6, amended.  On a scale with a conversion closure and a
color map, `MapColor` of an input whose unit value falls below 0
(resp. above 1) returns the color of the gradient clamped to its 0
(resp. 1) endpoint; when `DataToUnit` or `ColorMap` is nil the result
is the transparent color. There is no gray fallback. -/
theorem mapColor_clamps_to_gradient (s : ScaleOld) (x : F) (d2u : F → F) (cm : ColorMap)
    (h1 : s.DataToUnit = some d2u) (h2 : s.ColorMap = some cm) :
    (F.lt (d2u x) (F.fin 0) = true → s.MapColor x = cm.At (F.fin 0)) ∧
    (F.lt (F.fin 1) (d2u x) = true → s.MapColor x = cm.At (F.fin 1)) := by
  constructor
  · intro h
    unfold ScaleOld.MapColor
    rw [h1, h2]
    simp [h]
  · intro h
    have h0 : F.lt (d2u x) (F.fin 0) = false := by
      cases hdx : d2u x with
      | nan => rfl
      | inf s => rw [hdx] at h; cases s <;> simp_all [F.lt]
      | fin q =>
          rw [hdx] at h
          simp only [F.lt_fin_fin, decide_eq_true_eq] at h ⊢
          simpa using not_lt.mpr (by linarith : (0 : ℚ) ≤ q)
    unfold ScaleOld.MapColor
    rw [h1, h2]
    simp [h, h0]

/-- Witness for `mapColor_clamps_to_gradient`: `x = 20` on the scale
over `[0,10]` has unit value 2 and maps to the 1-endpoint color. -/
theorem mapColor_clamps_to_gradient_witness :
    c6Scale.MapColor (F.fin 20) = c6ColorMap.At (F.fin 1) :=
  (mapColor_clamps_to_gradient c6Scale (F.fin 20) _ c6ColorMap rfl rfl).2
    (by norm_num [c6Scale, NewScaleOld, ScaleOld.buildConversionFuncs, F.lt, F.div])

/-! ## Claim C4: one shared X scale, autoscaled once -/

/-- The two-panel plot of the claim: one row, two columns, shared
(non-free) axes; the left panel's geom covers X extent `[0,10]`, the
right panel's geom covers `[20,30]`. -/
def c4Plot : PlotM :=
  { NewPlot 1 2 false false with
      Panels := [[⟨[GeomM.adr (fun i => if i = 0 then ⟨F.fin 0, F.fin 10⟩ else UnsetInterval)]⟩,
                  ⟨[GeomM.adr (fun i => if i = 0 then ⟨F.fin 20, F.fin 30⟩ else UnsetInterval)]⟩]] }

/-- The pipeline state right before the autoscale pass of `Range`. -/
def c4Learned : PlotM := c4Plot.rangeReset.learnDataRange

set_option maxHeartbeats 16000000 in
set_option maxRecDepth 8000 in
/-- Claim C4.  Both columns hold the same X-scale pointer (index 0);
after learning, the shared scale's `Data` is the union `[0,30]` of the
two disjoint panel extents; the deduplicated `applyToScales` applies
any per-scale mutation to that scale exactly once (so `Autoscale` runs
once, not twice); and after the full `Range` pipeline the scale's
output interval equals one application of the 5-percent relative
expansion to `[0,30]`, namely `[-1.5, 31.5]`. -/
theorem shared_x_scale_autoscaled_once :
    c4Plot.XScales = [0, 0] ∧
    (c4Learned.getS 0).Data = ⟨F.fin 0, F.fin 30⟩ ∧
    (∀ m : ScaleOld → ScaleOld,
      (c4Learned.applyToScales m).getS 0 = m (c4Learned.getS 0)) ∧
    (c4Plot.Range.getS 0).Data = ⟨F.fin 0, F.fin 30⟩ ∧
    (c4Plot.Range.getS 0).Iv = ⟨F.fin (-3/2), F.fin (63/2)⟩ ∧
    ((c4Learned.getS 0).autoscale).Iv = ⟨F.fin (-3/2), F.fin (63/2)⟩ := by
  refine ⟨rfl, ?_, ?_, ?_, ?_, ?_⟩
  · norm_num [c4Learned, c4Plot, NewPlot, NewScaleOld, PlotM.rangeReset,
      PlotM.learnDataRange, PlotM.applyGeom, PlotM.getS, PlotM.setS, PlotM.modifyS,
      ScaleOld.UpdateData, Interval.update1, UnsetInterval, F.isNaN, F.lt,
      List.range_succ, List.foldl]
  · intro m
    norm_num [c4Learned, c4Plot, NewPlot, NewScaleOld, PlotM.rangeReset,
      PlotM.learnDataRange, PlotM.applyGeom, PlotM.applyToScales, PlotM.getS,
      PlotM.setS, PlotM.modifyS, ScaleOld.UpdateData, Interval.update1,
      UnsetInterval, F.isNaN, F.lt, List.range_succ, List.foldl]
  · norm_num [c4Learned, c4Plot, NewPlot, NewScaleOld, PlotM.Range, PlotM.rangeReset,
      PlotM.learnDataRange, PlotM.applyGeom, PlotM.applyToScales,
      PlotM.deDegenerateXandY, deDegen1, PlotM.setupColorAndSizeMaps,
      PlotM.getS, PlotM.setS, PlotM.modifyS,
      ScaleOld.UpdateData, ScaleOld.autoscale, ScaleOld.buildConversionFuncs,
      ScaleOld.HasData, ScaleOld.MinRange, ScaleOld.MaxRange, ScaleOld.Expand,
      Interval.update1, UnsetInterval, F.isNaN, F.lt, F.beq,
      F.add, F.sub, F.mul, F.div, F.neg, List.range_succ, List.foldl]
  · norm_num [c4Learned, c4Plot, NewPlot, NewScaleOld, PlotM.Range, PlotM.rangeReset,
      PlotM.learnDataRange, PlotM.applyGeom, PlotM.applyToScales,
      PlotM.deDegenerateXandY, deDegen1, PlotM.setupColorAndSizeMaps,
      PlotM.getS, PlotM.setS, PlotM.modifyS,
      ScaleOld.UpdateData, ScaleOld.autoscale, ScaleOld.buildConversionFuncs,
      ScaleOld.HasData, ScaleOld.MinRange, ScaleOld.MaxRange, ScaleOld.Expand,
      Interval.update1, UnsetInterval, F.isNaN, F.lt, F.beq,
      F.add, F.sub, F.mul, F.div, F.neg, List.range_succ, List.foldl]
  · norm_num [c4Learned, c4Plot, NewPlot, NewScaleOld, PlotM.rangeReset,
      PlotM.learnDataRange, PlotM.applyGeom, PlotM.getS, PlotM.setS, PlotM.modifyS,
      ScaleOld.UpdateData, ScaleOld.autoscale, ScaleOld.HasData,
      ScaleOld.MinRange, ScaleOld.MaxRange, ScaleOld.Expand,
      Interval.update1, UnsetInterval, F.isNaN, F.lt, F.beq,
      F.add, F.sub, F.mul, F.div, F.neg, List.range_succ, List.foldl]

/-! ## Claim C10: combineGuides returns a partition -/

/-- Inserting `j` adds exactly one occurrence of `j` to the combined
groups and leaves every other count unchanged. -/
theorem addToCombinations_flatten_count (can : Nat → Bool) (j m : Nat) :
    ∀ cs : List (List Nat),
      ((addToCombinations can j cs).flatten).count m
        = (cs.flatten).count m + (if m = j then 1 else 0) := by
  intro cs
  induction cs with
  | nil =>
      by_cases hmj : m = j <;>
        simp [addToCombinations, List.count_cons, hmj]
  | cons c rest ih =>
      unfold addToCombinations
      split
      · simp only [List.flatten_cons, List.count_append, List.count_cons, List.count_nil]
        by_cases hmj : m = j <;> simp [hmj] <;> omega
      · simp only [List.flatten_cons, List.count_append, ih]
        omega

/-- Every member of a group after insertion was in some group before,
or is the inserted index. -/
theorem addToCombinations_mem (can : Nat → Bool) (j x : Nat) :
    ∀ (cs : List (List Nat)) (g : List Nat),
      g ∈ addToCombinations can j cs → x ∈ g →
      (∃ g₀ ∈ cs, x ∈ g₀) ∨ x = j := by
  intro cs
  induction cs with
  | nil =>
      intro g hg hx
      simp only [addToCombinations, List.mem_singleton] at hg
      subst hg
      simp only [List.mem_singleton] at hx
      exact Or.inr hx
  | cons c rest ih =>
      intro g hg hx
      unfold addToCombinations at hg
      split at hg
      · rcases List.mem_cons.mp hg with rfl | hg'
        · rcases List.mem_append.mp hx with hxc | hxj
          · exact Or.inl ⟨c, List.mem_cons_self c rest, hxc⟩
          · simp only [List.mem_singleton] at hxj
            exact Or.inr hxj
        · exact Or.inl ⟨g, List.mem_cons_of_mem c hg', hx⟩
      · rcases List.mem_cons.mp hg with rfl | hg'
        · exact Or.inl ⟨g, List.mem_cons_self g rest, hx⟩
        · rcases ih g hg' hx with ⟨g₀, hg₀, hxg₀⟩ | h
          · exact Or.inl ⟨g₀, List.mem_cons_of_mem c hg₀, hxg₀⟩
          · exact Or.inr h

/-- Occurrence count of the `combineGuides` fold, generic in the
has-data predicate and the combination test: over a duplicate-free
index list, each index with data ends up exactly once. -/
theorem combineFold_count (hasD : Nat → Bool) (can : Nat → Nat → Bool) :
    ∀ (js : List Nat), js.Nodup → ∀ (cs : List (List Nat)) (m : Nat),
      ((js.foldl (fun combos j =>
          if !hasD j then combos else addToCombinations (can j) j combos) cs).flatten).count m
        = (cs.flatten).count m + (if m ∈ js ∧ hasD m = true then 1 else 0) := by
  intro js
  induction js with
  | nil => intro _ cs m; simp
  | cons j js' ih =>
      intro hnd cs m
      obtain ⟨hj, hnd'⟩ := List.nodup_cons.mp hnd
      rw [List.foldl_cons]
      by_cases hdj : hasD j = true
      · rw [if_neg (by simp [hdj])]
        rw [ih hnd' _ m, addToCombinations_flatten_count]
        by_cases hmj : m = j
        · subst hmj
          simp [hdj, hj]
        · simp only [hmj, if_false, List.mem_cons, false_or]
          omega
      · rw [if_pos (by simp [hdj])]
        rw [ih hnd' cs m]
        by_cases hmj : m = j
        · subst hmj
          simp [hdj]
        · simp only [List.mem_cons, hmj, false_or]

/-- Group membership in the `combineGuides` fold, generic: every index
in a produced group was walked and has data. -/
theorem combineFold_mem (hasD : Nat → Bool) (can : Nat → Nat → Bool) :
    ∀ (js : List Nat) (cs : List (List Nat)) (g : List Nat) (x : Nat),
      g ∈ js.foldl (fun combos j =>
        if !hasD j then combos else addToCombinations (can j) j combos) cs →
      x ∈ g →
      (∃ g₀ ∈ cs, x ∈ g₀) ∨ (x ∈ js ∧ hasD x = true) := by
  intro js
  induction js with
  | nil => intro cs g x hg hx; exact Or.inl ⟨g, hg, hx⟩
  | cons j js' ih =>
      intro cs g x hg hx
      rw [List.foldl_cons] at hg
      by_cases hdj : hasD j = true
      · rw [if_neg (by simp [hdj])] at hg
        rcases ih _ g x hg hx with ⟨g₀, hg₀, hx₀⟩ | ⟨hxjs, hdx⟩
        · rcases addToCombinations_mem (can j) j x cs g₀ hg₀ hx₀ with ⟨g₁, hg₁, hx₁⟩ | rfl
          · exact Or.inl ⟨g₁, hg₁, hx₁⟩
          · exact Or.inr ⟨List.mem_cons_self x js', hdj⟩
        · exact Or.inr ⟨List.mem_cons_of_mem j hxjs, hdx⟩
      · rw [if_pos (by simp [hdj])] at hg
        rcases ih cs g x hg hx with h | ⟨hxjs, hdx⟩
        · exact Or.inl h
        · exact Or.inr ⟨List.mem_cons_of_mem j hxjs, hdx⟩

/-- Claim C10.  `combineGuides` partitions the data-bearing
non-positional scale indices: every index in `[FillScale, numScales) =
[2, 7)` whose scale has data occurs in exactly one returned group (and
exactly once there), every other index occurs in no group, and every
member of every returned group is a data-bearing index of that range. -/
theorem combineGuides_partition (f : PlotM) :
    (∀ j : Nat, ((f.combineGuides).flatten).count j
        = if 2 ≤ j ∧ j < 7 ∧ (f.getS (f.Scales.getD j 0)).HasData = true then 1 else 0) ∧
    ((f.combineGuides).all fun g => g.all fun k =>
      decide (2 ≤ k) && decide (k < 7) && (f.getS (f.Scales.getD k 0)).HasData) = true := by
  have hrange : List.range' 2 5 = [2, 3, 4, 5, 6] := rfl
  constructor
  · intro j
    have h := combineFold_count (fun j => (f.getS (f.Scales.getD j 0)).HasData)
      (fun j k => f.canCombineScales j k) (List.range' 2 5) (by rw [hrange]; decide)
      [] j
    have hmem : (j ∈ List.range' 2 5) ↔ (2 ≤ j ∧ j < 7) := by
      rw [hrange]
      simp only [List.mem_cons, List.not_mem_nil, or_false]
      omega
    rw [show f.combineGuides = (List.range' 2 5).foldl (fun combos j =>
        if !(f.getS (f.Scales.getD j 0)).HasData then combos
        else addToCombinations (fun k => f.canCombineScales j k) j combos) [] from rfl]
    rw [h]
    simp only [List.flatten_nil, List.count_nil, Nat.zero_add, hmem, and_assoc]
  · rw [List.all_eq_true]
    intro g hg
    rw [List.all_eq_true]
    intro k hk
    have hg' : g ∈ (List.range' 2 5).foldl (fun combos j =>
        if !(f.getS (f.Scales.getD j 0)).HasData then combos
        else addToCombinations (fun k => f.canCombineScales j k) j combos) [] := hg
    rcases combineFold_mem (fun j => (f.getS (f.Scales.getD j 0)).HasData)
        (fun j k => f.canCombineScales j k) (List.range' 2 5) [] g k hg' hk with
      ⟨g₀, hg₀, _⟩ | ⟨hkmem, hdk⟩
    · simp at hg₀
    · rw [hrange] at hkmem
      simp only [List.mem_cons, List.not_mem_nil, or_false] at hkmem
      have hk2 : 2 ≤ k := by omega
      have hk7 : k < 7 := by omega
      simp only [Bool.and_eq_true, decide_eq_true_eq]
      exact ⟨⟨hk2, hk7⟩, hdk⟩

end Facet
